import Mathlib

/-!
Shallow embedding of the SHAMap synchronization core of rippled
(SHAMapSync: getMissingNodes, getNodeFat, addRootNode, addKnownNode),
together with proofs about the embedded operations.

The four public operations are translated directly from the C++ source.
Helper operations of the surrounding SHAMap class (node identity, node
codec, store lookups, walkTo) are not part of the given source fragment;
they are modelled from the specification, as marked on each definition.
-/

namespace SHAMapSync

/-- Node identity: the path from the root, one branch index per level.
The C++ `SHAMapNode` stores a depth plus a 256-bit key prefix whose
leading `depth` nibbles are significant; two IDs are equal iff depth and
significant prefix agree, so the list of significant branch digits is an
equivalent representation. -/
structure SHAMapNode where
  branches : List Nat
  deriving DecidableEq, Repr

/-- Depth of a node ID: the number of significant branch digits. -/
def SHAMapNode.depth (n : SHAMapNode) : Nat := n.branches.length

/-- Modelled from the spec: `isRoot ⇔ depth == 0`. -/
def SHAMapNode.isRoot (n : SHAMapNode) : Bool := n.depth == 0

/-- Modelled from the spec: `isLeaf ⇔ depth == 64`. -/
def SHAMapNode.isLeaf (n : SHAMapNode) : Bool := n.depth == 64

/-- Modelled from the spec: `childID(branch)` extends the path by one digit. -/
def SHAMapNode.childID (n : SHAMapNode) (b : Nat) : SHAMapNode :=
  ⟨n.branches ++ [b]⟩

/-- One step of the digest accumulator used by the model hash. -/
def hashStep (a b : Nat) : Nat := a * 31 + b + 1

/-- Modelled from the spec: `getSHA512Half`, the 256-bit digest of a wire
form. The claims under verification depend only on equality tests between
digests, never on cryptographic properties, so the digest is modelled by a
computable stand-in over the abstracted wire form (a list of naturals). -/
def getSHA512Half (l : List Nat) : Nat := l.foldl hashStep 1

/-- Modelled from the spec: a leaf node holds one item `(key, payload)`;
`seq` is the generation tag at which the node was written. -/
structure SHAMapLeafNode where
  key : Nat
  payload : List Nat
  seq : Nat
  deriving DecidableEq, Repr

/-- Modelled from the spec: an inner node has its ID, 32 child-hash slots
(the source fragment loops over branches 0..31; a slot holding 0 is empty),
and a generation tag. The `fullBelow` flag is kept in the map state, keyed
by the node's ID (see `MapState.fullBelow`). -/
structure SHAMapInnerNode where
  id : SHAMapNode
  children : List Nat
  seq : Nat
  deriving DecidableEq, Repr

/-- Modelled from the spec: a leaf's node hash is the digest of
`key ‖ payload`. -/
def SHAMapLeafNode.getNodeHash (l : SHAMapLeafNode) : Nat :=
  getSHA512Half (l.key :: l.payload)

/-- Modelled from the spec: an inner node's hash is the digest of the
canonical serialization of its child hashes. -/
def SHAMapInnerNode.getNodeHash (n : SHAMapInnerNode) : Nat :=
  getSHA512Half n.children

/-- Child hash at a branch slot; out-of-range slots read as empty (0). -/
def SHAMapInnerNode.getChildHash (n : SHAMapInnerNode) (i : Nat) : Nat :=
  n.children.getD i 0

/-- Modelled from the spec: branch `i` is empty iff its child hash is the
all-zero hash. -/
def SHAMapInnerNode.isEmptyBranch (n : SHAMapInnerNode) (i : Nat) : Bool :=
  n.getChildHash i == 0

/-- Modelled from the spec: the children of an inner node are leaves iff
the node sits at depth 63 (its children then have all 64 nibbles). -/
def SHAMapInnerNode.isChildLeaf (n : SHAMapInnerNode) : Bool :=
  n.id.depth == 63

/-- ID of the child of `n` at branch `i`. -/
def SHAMapInnerNode.getChildNodeID (n : SHAMapInnerNode) (i : Nat) : SHAMapNode :=
  n.id.childID i

/-- Modelled from the spec: a key reinterpreted as its 64 nibbles,
high nibble first; this is the node ID derived from a leaf's key. -/
def keyToID (k : Nat) : SHAMapNode :=
  ⟨(List.range 64).map (fun i => k / 16 ^ (63 - i) % 16)⟩

/-- Modelled from the spec: `selectBranch` on an inner node extracts the
digit of the target's path at the inner node's depth; it is invalid (the
C++ returns a negative branch) when the target is not deeper than the
node. -/
def selectBranch (cur : SHAMapInnerNode) (target : SHAMapNode) : Option Nat :=
  target.branches.get? cur.id.depth

/-- Modelled from the spec: serialized wire form of a leaf node,
`key ‖ payload`. -/
def serLeaf (l : SHAMapLeafNode) : List Nat := l.key :: l.payload

/-- Modelled from the spec: serialized wire form of an inner node, its 32
child hashes in branch order. -/
def serInner (n : SHAMapInnerNode) : List Nat := n.children

/-- Modelled from the spec: deserializing constructor of a leaf node
(`SHAMapLeafNode(node, rawNode, seq)`); fails (`MalformedNode`) when the
payload is too short to hold a key. -/
def deserLeaf (raw : List Nat) (seq : Nat) : Option SHAMapLeafNode :=
  match raw with
  | [] => none
  | k :: p => some ⟨k, p, seq⟩

/-- Modelled from the spec: deserializing constructor of an inner node
(`SHAMapInnerNode(node, rawNode, seq)`); fails (`MalformedNode`) when the
wire form does not hold exactly the 32 child-hash slots. -/
def deserInner (id : SHAMapNode) (raw : List Nat) (seq : Nat) :
    Option SHAMapInnerNode :=
  if raw.length = 32 then some ⟨id, raw, seq⟩ else none

/-- Association-list lookup keyed by node ID (the by-ID indexes of the
store). -/
def lookupID {β : Type} (id : SHAMapNode) :
    List (SHAMapNode × β) → Option β
  | [] => none
  | p :: rest => if p.1 = id then some p.2 else lookupID id rest

/-- State of one SHAMap: the root (none while the trie has no root, i.e.
while the root hash is zero), the two by-ID indexes, the two optional
dirty sets (none when dirty tracking is disabled), the set of node IDs
whose inner node carries the `fullBelow` flag, and the map's sequence
tag. -/
structure MapState where
  root : Option SHAMapInnerNode
  innerByID : List (SHAMapNode × SHAMapInnerNode)
  leafByID : List (SHAMapNode × SHAMapLeafNode)
  dirtyInner : Option (List (SHAMapNode × SHAMapInnerNode))
  dirtyLeaf : Option (List (SHAMapNode × SHAMapLeafNode))
  fullBelow : List SHAMapNode
  seq : Nat
  deriving DecidableEq, Repr

/-- Lookup in the inner-by-ID index validating the expected hash: a
mismatch is reported by returning empty, never a stale node. -/
def getInnerM (m : List (SHAMapNode × SHAMapInnerNode)) (id : SHAMapNode)
    (h : Nat) : Option SHAMapInnerNode :=
  match lookupID id m with
  | some n => if n.getNodeHash = h then some n else none
  | none => none

/-- Lookup in the leaf-by-ID index validating the expected hash. -/
def getLeafM (m : List (SHAMapNode × SHAMapLeafNode)) (id : SHAMapNode)
    (h : Nat) : Option SHAMapLeafNode :=
  match lookupID id m with
  | some n => if n.getNodeHash = h then some n else none
  | none => none

/-- Modelled from the spec: `SHAMap::getInner(id, expectedHash, false)`. -/
def getInner (s : MapState) (id : SHAMapNode) (h : Nat) :
    Option SHAMapInnerNode :=
  getInnerM s.innerByID id h

/-- Modelled from the spec: `SHAMap::getLeaf(id, expectedHash, false)`. -/
def getLeaf (s : MapState) (id : SHAMapNode) (h : Nat) :
    Option SHAMapLeafNode :=
  getLeafM s.leafByID id h

/-- The placeholder empty root of a freshly constructed map: all 32
branches empty, node hash not yet computed (zero). -/
def emptyRoot : SHAMapInnerNode :=
  ⟨⟨[]⟩, List.replicate 32 0, 0⟩

/-- The root node object: a map whose root hash is still zero holds the
empty placeholder root. -/
def rootNode (s : MapState) : SHAMapInnerNode := s.root.getD emptyRoot

/-- Modelled from the spec: `SHAMap::getInnerNode(wanted)` — the resident
inner node for an ID, without an expected hash; the root is always an
object (possibly the empty placeholder). -/
def getInnerNode (s : MapState) (id : SHAMapNode) : Option SHAMapInnerNode :=
  if id.depth = 0 then some (rootNode s) else lookupID id s.innerByID

/-- Modelled from the spec: `SHAMap::getLeafNode(wanted)` — the resident
leaf for an ID, without an expected hash. -/
def getLeafNode (s : MapState) (id : SHAMapNode) : Option SHAMapLeafNode :=
  lookupID id s.leafByID

/-- Modelled from the spec: `checkCacheLeaf`, the fast already-have test
on the leaf-by-ID index. -/
def checkCacheLeaf (s : MapState) (id : SHAMapNode) : Bool :=
  (lookupID id s.leafByID).isSome

/-- Modelled from the spec: `checkCacheNode`, the fast already-have test
on the inner-by-ID index. -/
def checkCacheNode (s : MapState) (id : SHAMapNode) : Bool :=
  (lookupID id s.innerByID).isSome

/-- Whether the inner node with the given ID carries the `fullBelow`
flag. -/
def isFullBelow (s : MapState) (id : SHAMapNode) : Bool :=
  s.fullBelow.contains id

/-- Set the `fullBelow` flag of the inner node with the given ID
(`SHAMapInnerNode::setFullBelow`). -/
def setFullBelow (s : MapState) (id : SHAMapNode) : MapState :=
  { s with fullBelow := id :: s.fullBelow }

/-- Modelled from the spec: `SHAMap::walkTo` descent — starting at `cur`,
descend by `selectBranch` until the target depth is reached or the next
branch is empty or unresident, returning the last resident inner node.
The fuel bounds the descent by the maximal depth. -/
def walkToAux (s : MapState) : Nat → SHAMapInnerNode → SHAMapNode → SHAMapInnerNode
  | 0, cur, _ => cur
  | Nat.succ fuel, cur, target =>
    if target.depth ≤ cur.id.depth then cur
    else
      match selectBranch cur target with
      | none => cur
      | some b =>
        if cur.getChildHash b = 0 then cur
        else
          match getInner s (cur.id.childID b) (cur.getChildHash b) with
          | none => cur
          | some nxt => walkToAux s fuel nxt target

/-- Modelled from the spec: `SHAMap::walkTo(id)` — the deepest resident
inner node on the path to `id`; empty only when the root itself is
absent. -/
def walkTo (s : MapState) (target : SHAMapNode) : Option SHAMapInnerNode :=
  match s.root with
  | none => none
  | some r => some (walkToAux s 64 r target)

/-- One branch iteration of the `getMissingNodes` walk, for branch `i` of
`node`, translated from the body of the `for(int i=0; i<32; i++)` loop of
`SHAMap::getMissingNodes`. The accumulator carries the remaining budget
`max`, the emitted `(id, hash)` pairs, the inner children pushed for
further exploration, and the `all_leaves` flag. -/
def gmnStep (s : MapState) (node : SHAMapInnerNode) (i : Nat)
    (acc : Nat × List (SHAMapNode × Nat) × List SHAMapInnerNode × Bool) :
    Nat × List (SHAMapNode × Nat) × List SHAMapInnerNode × Bool :=
  if node.isEmptyBranch i then acc
  else if node.isChildLeaf then
    match getLeaf s (node.getChildNodeID i) (node.getChildHash i) with
    | some _ => acc
    | none =>
      if 0 < acc.1 then
        (acc.1 - 1, acc.2.1 ++ [(node.getChildNodeID i, node.getChildHash i)],
          acc.2.2.1, false)
      else (acc.1, acc.2.1, acc.2.2.1, false)
  else
    match getInner s (node.getChildNodeID i) (node.getChildHash i) with
    | none =>
      if 0 < acc.1 then
        (acc.1 - 1, acc.2.1 ++ [(node.getChildNodeID i, node.getChildHash i)],
          acc.2.2.1, false)
      else (acc.1, acc.2.1, acc.2.2.1, false)
    | some desc =>
      if isFullBelow s desc.id then acc
      else (acc.1, acc.2.1, acc.2.2.1 ++ [desc], acc.2.2.2)

/-- The branch scan of one node popped by `getMissingNodes`, iterating
`gmnStep` over a list of branch indices (the source scans
`List.range 32`). -/
def gmnScan (s : MapState) (node : SHAMapInnerNode) :
    List Nat → (Nat × List (SHAMapNode × Nat) × List SHAMapInnerNode × Bool) →
    Nat × List (SHAMapNode × Nat) × List SHAMapInnerNode × Bool
  | [], acc => acc
  | i :: rest, acc => gmnScan s node rest (gmnStep s node i acc)

/-- The `while( (max>0) && (!stack.empty()) )` loop of
`SHAMap::getMissingNodes`, with an explicit LIFO stack. Children pushed
during a scan sit above the remaining stack in reverse scan order, as with
the C++ `std::stack`. The fuel bounds the number of loop iterations (the
C++ loop terminates because every pushed node is strictly deeper than its
parent and depth is bounded by 64); every property proved below holds for
all fuel values. The result carries the emitted pairs, the final state and
the remaining budget. -/
def gmnLoop : Nat → MapState → List SHAMapInnerNode → Nat →
    List (SHAMapNode × Nat) → List (SHAMapNode × Nat) × MapState × Nat
  | 0, s, _, mx, out => (out, s, mx)
  | Nat.succ fuel, s, stack, mx, out =>
    if mx = 0 then (out, s, mx)
    else
      match stack with
      | [] => (out, s, mx)
      | node :: rest =>
        let r := gmnScan s node (List.range 32) (mx, [], [], true)
        gmnLoop fuel (if r.2.2.2 then setFullBelow s node.id else s)
          (r.2.2.1.reverse ++ rest) r.1 (out ++ r.2.1)

/-- Translation of `SHAMap::getMissingNodes(nodeIDs, hashes, max)`: returns the emitted
`(id, hash)` pairs and the state after the walk. -/
def getMissingNodes (fuel : Nat) (s : MapState) (maxNodes : Nat) :
    List (SHAMapNode × Nat) × MapState :=
  if isFullBelow s (rootNode s).id then ([], s)
  else
    ((gmnLoop fuel s [rootNode s] maxNodes []).1,
     (gmnLoop fuel s [rootNode s] maxNodes []).2.1)

/-- One branch iteration of `SHAMap::getNodeFat`, for branch `i` of
`node`; the accumulator carries the aggregate completeness flag and the
collected IDs and raw forms. -/
def gnfStep (s : MapState) (node : SHAMapInnerNode) (i : Nat)
    (acc : Bool × List SHAMapNode × List (List Nat)) :
    Bool × List SHAMapNode × List (List Nat) :=
  if node.isEmptyBranch i then acc
  else if node.isChildLeaf then
    match getLeaf s (node.getChildNodeID i) (node.getChildHash i) with
    | none => (false, acc.2.1, acc.2.2)
    | some leaf =>
      (acc.1, acc.2.1 ++ [keyToID leaf.key], acc.2.2 ++ [serLeaf leaf])
  else
    match getInner s (node.getChildNodeID i) (node.getChildHash i) with
    | none => (false, acc.2.1, acc.2.2)
    | some ino => (acc.1, acc.2.1 ++ [ino.id], acc.2.2 ++ [serInner ino])

/-- Translation of `SHAMap::getNodeFat(wanted, nodeIDs, rawNodes)`: returns the success
flag and the collected node IDs and raw node forms. -/
def getNodeFat (s : MapState) (wanted : SHAMapNode) :
    Bool × List SHAMapNode × List (List Nat) :=
  if wanted.isLeaf then
    match getLeafNode s wanted with
    | none => (false, [], [])
    | some leaf => (true, [keyToID leaf.key], [serLeaf leaf])
  else
    match getInnerNode s wanted with
    | none => (false, [], [])
    | some node =>
      (List.range 32).foldl (fun acc i => gnfStep s node i acc) (true, [], [])

/-- Insertion into a dirty set, a no-op when dirty tracking is
disabled. -/
def dirtyAdd {β : Type} (d : Option (List (SHAMapNode × β)))
    (id : SHAMapNode) (v : β) : Option (List (SHAMapNode × β)) :=
  match d with
  | none => none
  | some l => some ((id, v) :: l)

/-- Install a deserialized node as the root: set the root, insert into the
inner-by-ID index and the dirty-inner set. The replaced root object's
`fullBelow` flag is discarded with the object, so the flag entry for the
root ID is cleared. -/
def installRoot (s : MapState) (node : SHAMapInnerNode) : MapState :=
  { s with
    root := some node,
    innerByID := (node.id, node) :: s.innerByID,
    dirtyInner := dirtyAdd s.dirtyInner node.id node,
    fullBelow := s.fullBelow.filter (fun x => x ≠ node.id) }

/-- Translation of `SHAMap::addRootNode(rootNode)` (the variant without an expected
hash). -/
def addRootNode (s : MapState) (rootNode : List Nat) : Bool × MapState :=
  match s.root with
  | some _ => (true, s)
  | none =>
    match deserInner ⟨[]⟩ rootNode 0 with
    | none => (false, s)
    | some node => (true, installRoot s node)

/-- Translation of `SHAMap::addRootNode(hash, rootNode)` (the variant with an expected
hash). -/
def addRootNodeH (s : MapState) (hash : Nat) (rootNode : List Nat) :
    Bool × MapState :=
  match s.root with
  | some _ => (true, s)
  | none =>
    match deserInner ⟨[]⟩ rootNode 0 with
    | none => (false, s)
    | some node =>
      if node.getNodeHash ≠ hash then (false, s)
      else (true, installRoot s node)

/-- The already-cached test at the top of `SHAMap::addKnownNode`:
`checkCacheLeaf` or `checkCacheNode` according to `id.isLeaf`. -/
def cachedB (s : MapState) (id : SHAMapNode) : Bool :=
  if id.isLeaf then checkCacheLeaf s id else checkCacheNode s id

/-- Install a pushed leaf node: insert into the leaf-by-ID index and the
dirty-leaf set. -/
def installLeaf (s : MapState) (id : SHAMapNode) (leaf : SHAMapLeafNode) :
    MapState :=
  { s with
    leafByID := (id, leaf) :: s.leafByID,
    dirtyLeaf := dirtyAdd s.dirtyLeaf id leaf }

/-- Install a pushed inner node: insert into the inner-by-ID index and the
dirty-inner set. -/
def installInner (s : MapState) (id : SHAMapNode) (node : SHAMapInnerNode) :
    MapState :=
  { s with
    innerByID := (id, node) :: s.innerByID,
    dirtyInner := dirtyAdd s.dirtyInner id node }

/-- The deserialize-verify-install tail of `SHAMap::addKnownNode`, entered
with the non-zero expected hash `h` taken from the parent's branch slot. -/
def addKnownNodeInstall (s : MapState) (node : SHAMapNode) (rawNode : List Nat)
    (h : Nat) : Bool × MapState :=
  if node.isLeaf then
    match deserLeaf rawNode s.seq with
    | none => (false, s)
    | some leaf =>
      if leaf.getNodeHash ≠ h ∨ keyToID leaf.key ≠ node then (false, s)
      else (true, installLeaf s node leaf)
  else
    match deserInner node rawNode s.seq with
    | none => (false, s)
    | some newNode =>
      if newNode.getNodeHash ≠ h ∨ newNode.id ≠ node then (false, s)
      else (true, installInner s node newNode)

/-- The walk-and-hook part of `SHAMap::addKnownNode`, entered after the
cache check failed to find the node. -/
def addKnownNodeWalk (s : MapState) (node : SHAMapNode) (rawNode : List Nat) :
    Bool × MapState :=
  match walkTo s node with
  | none => (true, s)
  | some iNode =>
    if iNode.id.depth = node.depth then (true, s)
    else if iNode.id.depth ≠ node.depth - 1 then (false, s)
    else
      match selectBranch iNode node with
      | none => (false, s)
      | some branch =>
        if iNode.getChildHash branch = 0 then (false, s)
        else addKnownNodeInstall s node rawNode (iNode.getChildHash branch)

/-- Translation of `SHAMap::addKnownNode(node, rawNode)`. -/
def addKnownNode (s : MapState) (node : SHAMapNode) (rawNode : List Nat) :
    Bool × MapState :=
  if cachedB s node then (true, s)
  else addKnownNodeWalk s node rawNode

/-- Whether the child of `n` at branch `i` is resident in the store,
looked up by `(id, hash)` exactly as the `getMissingNodes` walk does. -/
def residentChild (s : MapState) (n : SHAMapInnerNode) (i : Nat) : Bool :=
  if n.isChildLeaf then
    (getLeaf s (n.getChildNodeID i) (n.getChildHash i)).isSome
  else
    (getInner s (n.getChildNodeID i) (n.getChildHash i)).isSome

/-- Branch-list worker of `reachPairs`: scans the given branch indices of
`n`, collecting each non-empty branch's `(id, hash)` pair and, for a
resident inner child, the recursively reachable pairs below it (through
the function argument `f`). -/
def reachChildren (s : MapState) (f : SHAMapInnerNode → List (SHAMapNode × Nat))
    (n : SHAMapInnerNode) : List Nat → List (SHAMapNode × Nat)
  | [] => []
  | i :: rest =>
    (if n.isEmptyBranch i then [] else
      (n.getChildNodeID i, n.getChildHash i) ::
        (match getInner s (n.getChildNodeID i) (n.getChildHash i) with
         | some d => if n.isChildLeaf then [] else f d
         | none => []))
    ++ reachChildren s f n rest

/-- All `(id, hash)` pairs of descendants of `n` reachable through
non-empty branches (indices 0..31), descending through resident inner
children; the fuel bounds the descent depth. -/
def reachPairs (s : MapState) : Nat → SHAMapInnerNode → List (SHAMapNode × Nat)
  | 0, _ => []
  | Nat.succ fuel, n => reachChildren s (reachPairs s fuel) n (List.range 32)

/-- Whether the node named by an `(id, hash)` pair is resident in the
store. -/
def residentPair (s : MapState) (p : SHAMapNode × Nat) : Bool :=
  if p.1.isLeaf then (getLeaf s p.1 p.2).isSome
  else (getInner s p.1 p.2).isSome

/-- The frame of `getMissingNodes`: the two by-ID indexes, the dirty sets,
the root and the sequence tag are untouched, and the set of `fullBelow`
flags only grows. -/
def frameOK (s t : MapState) : Prop :=
  t.root = s.root ∧ t.innerByID = s.innerByID ∧ t.leafByID = s.leafByID ∧
  t.dirtyInner = s.dirtyInner ∧ t.dirtyLeaf = s.dirtyLeaf ∧
  t.seq = s.seq ∧ s.fullBelow ⊆ t.fullBelow

/-- Emitted `(id, hash)` pairs of the non-empty branches of `n` among a
given list of branch indices, in list order. -/
def emitList (n : SHAMapInnerNode) (l : List Nat) : List (SHAMapNode × Nat) :=
  (l.filter (fun i => !(n.isEmptyBranch i))).map
    (fun i => (n.getChildNodeID i, n.getChildHash i))

/-- Example: an inner node at depth 1 referencing one missing child. -/
def exC1 : SHAMapInnerNode := ⟨⟨[0]⟩, 7 :: List.replicate 31 0, 0⟩

/-- Example: a root whose single child is `exC1`. -/
def exR1 : SHAMapInnerNode :=
  ⟨⟨[]⟩, exC1.getNodeHash :: List.replicate 31 0, 0⟩

/-- Example: a map holding `exR1` as root and `exC1` resident, with the
grandchild at `(⟨[0,0]⟩, 7)` missing. -/
def exS1 : MapState := ⟨some exR1, [(⟨[0]⟩, exC1)], [], none, none, [], 0⟩

/-- Example: a root whose only non-empty branch is index 20. -/
def exR20 : SHAMapInnerNode :=
  ⟨⟨[]⟩, List.replicate 20 0 ++ 7 :: List.replicate 11 0, 0⟩

/-- Example: a map holding only `exR20` as root. -/
def exS20 : MapState := ⟨some exR20, [], [], none, none, [], 0⟩

/-- Example: a freshly constructed, completely empty map (no root hash
yet). -/
def emptyState : MapState := ⟨none, [], [], none, none, [], 0⟩

/-- Example: an all-empty root inner node stored as the root. -/
def exS3root : SHAMapInnerNode := ⟨⟨[]⟩, List.replicate 32 0, 0⟩

/-- Example: a map holding only the all-empty root. -/
def exS3 : MapState := ⟨some exS3root, [], [], none, none, [], 0⟩

/-- Example: the wire form of an inner node whose first child hash is 5. -/
def raw4 : List Nat := 5 :: List.replicate 31 0

/-- Example: the inner node deserialized from `raw4` at ID `⟨[0]⟩`. -/
def n4 : SHAMapInnerNode := ⟨⟨[0]⟩, raw4, 0⟩

/-- Example: a root referencing `n4` at branch 0. -/
def exR4 : SHAMapInnerNode :=
  ⟨⟨[]⟩, n4.getNodeHash :: List.replicate 31 0, 0⟩

/-- Example: a map holding `exR4` as root, with dirty tracking of inner
nodes enabled and the child at `⟨[0]⟩` not yet resident. -/
def exS4 : MapState := ⟨some exR4, [], [], some [], none, [], 0⟩

/-- Example: the all-zero inner wire form. -/
def raw8 : List Nat := List.replicate 32 0

/-- Example: the inner node deserialized from `raw8` at the root ID. -/
def n8 : SHAMapInnerNode := ⟨⟨[]⟩, raw8, 0⟩

/-- Example: a rootless map with dirty tracking of inner nodes enabled. -/
def exS8 : MapState := ⟨none, [], [], some [], none, [], 0⟩

/-- Example: a map with a cached leaf at a depth-64 ID, for the
duplicate-push case. -/
def exLeaf7 : SHAMapLeafNode := ⟨0, [1, 2], 0⟩

/-- Example: the depth-64 ID of `exLeaf7` (the all-zero key). -/
def exId7 : SHAMapNode := keyToID 0

/-- Example: a map with `exLeaf7` already cached under `exId7`. -/
def exS7 : MapState :=
  ⟨some exS3root, [], [(exId7, exLeaf7)], none, none, [], 0⟩

/-- A budget of zero stops the walk loop before any iteration. -/
theorem gmnLoop_zero (fuel : Nat) (s : MapState) (stack : List SHAMapInnerNode)
    (out : List (SHAMapNode × Nat)) : gmnLoop fuel s stack 0 out = (out, s, 0) := by
  cases fuel with
  | zero => rfl
  | succ fuel => simp [gmnLoop]

/-- An empty stack stops the walk loop. -/
theorem gmnLoop_nil (fuel : Nat) (s : MapState) (mx : Nat)
    (out : List (SHAMapNode × Nat)) : gmnLoop fuel s [] mx out = (out, s, mx) := by
  cases fuel with
  | zero => rfl
  | succ fuel =>
    unfold gmnLoop
    split <;> rfl

/-- Reflexivity of `frameOK`. -/
theorem frameOK_refl (s : MapState) : frameOK s s :=
  ⟨rfl, rfl, rfl, rfl, rfl, rfl, fun _ hx => hx⟩

/-- Setting a `fullBelow` flag respects the frame. -/
theorem frameOK_setFullBelow (s : MapState) (id : SHAMapNode) :
    frameOK s (setFullBelow s id) :=
  ⟨rfl, rfl, rfl, rfl, rfl, rfl, fun _ hx => List.mem_cons_of_mem _ hx⟩

/-- Transitivity of `frameOK`. -/
theorem frameOK_trans {s t u : MapState} (h1 : frameOK s t) (h2 : frameOK t u) :
    frameOK s u := by
  obtain ⟨a1, b1, c1, d1, e1, f1, g1⟩ := h1
  obtain ⟨a2, b2, c2, d2, e2, f2, g2⟩ := h2
  exact ⟨a2.trans a1, b2.trans b1, c2.trans c1, d2.trans d1, e2.trans e1,
    f2.trans f1, fun x hx => g2 (g1 hx)⟩

/-- The walk loop only sets `fullBelow` flags: every other state component
is untouched. -/
theorem gmnLoop_frame (fuel : Nat) : ∀ (s : MapState)
    (stack : List SHAMapInnerNode) (mx : Nat) (out : List (SHAMapNode × Nat)),
    frameOK s (gmnLoop fuel s stack mx out).2.1 := by
  induction fuel with
  | zero => intro s stack mx out; exact frameOK_refl s
  | succ fuel ih =>
    intro s stack mx out
    unfold gmnLoop
    by_cases hmx : mx = 0
    · simp only [hmx, if_true, reduceIte]
      exact frameOK_refl s
    · simp only [hmx, if_false, reduceIte]
      cases stack with
      | nil => exact frameOK_refl s
      | cons node rest =>
        simp only []
        split
        · exact frameOK_trans (frameOK_setFullBelow s node.id) (ih _ _ _ _)
        · exact ih _ _ _ _

/-- One branch iteration keeps the sum of remaining budget and emitted
count invariant: the budget is decremented exactly when a pair is
emitted. -/
theorem gmnStep_budget (s : MapState) (node : SHAMapInnerNode) (i : Nat)
    (acc : Nat × List (SHAMapNode × Nat) × List SHAMapInnerNode × Bool) :
    (gmnStep s node i acc).1 + (gmnStep s node i acc).2.1.length
      = acc.1 + acc.2.1.length := by
  unfold gmnStep
  split
  · rfl
  split
  · split
    · rfl
    · split
      · simp
        omega
      · rfl
  · split
    · split
      · simp
        omega
      · rfl
    · split
      · rfl
      · rfl

/-- The branch scan keeps the sum of remaining budget and emitted count
invariant. -/
theorem gmnScan_budget (s : MapState) (node : SHAMapInnerNode) :
    ∀ (l : List Nat) (acc : Nat × List (SHAMapNode × Nat) × List SHAMapInnerNode × Bool),
    (gmnScan s node l acc).1 + (gmnScan s node l acc).2.1.length
      = acc.1 + acc.2.1.length := by
  intro l
  induction l with
  | nil => intro acc; rfl
  | cons i rest ih =>
    intro acc
    have h1 := ih (gmnStep s node i acc)
    have h2 := gmnStep_budget s node i acc
    calc (gmnScan s node (i :: rest) acc).1
        + (gmnScan s node (i :: rest) acc).2.1.length
        = (gmnStep s node i acc).1 + (gmnStep s node i acc).2.1.length := h1
      _ = acc.1 + acc.2.1.length := h2

/-- The walk loop keeps the sum of remaining budget and emitted count
invariant: each emitted pair costs exactly one unit of budget. -/
theorem gmnLoop_budget (fuel : Nat) : ∀ (s : MapState)
    (stack : List SHAMapInnerNode) (mx : Nat) (out : List (SHAMapNode × Nat)),
    (gmnLoop fuel s stack mx out).2.2 + (gmnLoop fuel s stack mx out).1.length
      = mx + out.length := by
  induction fuel with
  | zero => intro s stack mx out; rfl
  | succ fuel ih =>
    intro s stack mx out
    unfold gmnLoop
    by_cases hmx : mx = 0
    · simp only [hmx, reduceIte]
    · simp only [hmx, reduceIte]
      cases stack with
      | nil => rfl
      | cons node rest =>
        simp only []
        have h1 := ih (if (gmnScan s node (List.range 32) (mx, [], [], true)).2.2.2
            then setFullBelow s node.id else s)
          ((gmnScan s node (List.range 32) (mx, [], [], true)).2.2.1.reverse ++ rest)
          (gmnScan s node (List.range 32) (mx, [], [], true)).1
          (out ++ (gmnScan s node (List.range 32) (mx, [], [], true)).2.1)
        have h2 := gmnScan_budget s node (List.range 32) (mx, [], [], true)
        simp only [List.length_append] at h1
        simp only [List.length_nil] at h2
        omega

/-- Stability of `residentChild`: it reads only the two by-ID indexes. -/
theorem residentChild_eq (s t : MapState) (hin : s.innerByID = t.innerByID)
    (hlf : s.leafByID = t.leafByID) (n : SHAMapInnerNode) (i : Nat) :
    residentChild s n i = residentChild t n i := by
  unfold residentChild getInner getLeaf
  rw [hin, hlf]

/-- A successful validated inner lookup comes from the inner-by-ID
index. -/
theorem getInner_lookup (s : MapState) (id : SHAMapNode) (h : Nat)
    (n : SHAMapInnerNode) (hx : getInner s id h = some n) :
    lookupID id s.innerByID = some n := by
  unfold getInner getInnerM at hx
  split at hx
  · split at hx
    · rename_i m heq _
      injection hx with hx
      rw [heq, hx]
    · exact absurd hx (by simp)
  · exact absurd hx (by simp)

/-- If one branch iteration leaves the `all_leaves` flag true, the flag
was true before and this branch, when non-empty, resolved to a resident
child. -/
theorem gmnStep_all (s : MapState) (node : SHAMapInnerNode) (i : Nat)
    (acc : Nat × List (SHAMapNode × Nat) × List SHAMapInnerNode × Bool)
    (h : (gmnStep s node i acc).2.2.2 = true) :
    acc.2.2.2 = true ∧
      (node.isEmptyBranch i = false → residentChild s node i = true) := by
  unfold gmnStep at h
  split at h
  · rename_i hemp
    exact ⟨h, fun hfalse => absurd hemp (by simp [hfalse])⟩
  · rename_i hemp
    split at h
    · rename_i hleaf
      split at h
      · rename_i leaf hfound
        exact ⟨h, fun _ => by simp [residentChild, hleaf, hfound]⟩
      · split at h <;> simp at h
    · rename_i hleaf
      split at h
      · split at h <;> simp at h
      · rename_i desc hfound
        split at h
        · exact ⟨h, fun _ => by simp [residentChild, hleaf, hfound]⟩
        · exact ⟨h, fun _ => by simp [residentChild, hleaf, hfound]⟩

/-- If the branch scan ends with the `all_leaves` flag true, every
non-empty scanned branch resolved to a resident child. -/
theorem gmnScan_all (s : MapState) (node : SHAMapInnerNode) :
    ∀ (l : List Nat)
      (acc : Nat × List (SHAMapNode × Nat) × List SHAMapInnerNode × Bool),
    (gmnScan s node l acc).2.2.2 = true →
    acc.2.2.2 = true ∧
      ∀ i ∈ l, node.isEmptyBranch i = false → residentChild s node i = true := by
  intro l
  induction l with
  | nil => intro acc h; exact ⟨h, by simp⟩
  | cons i rest ih =>
    intro acc h
    have h2 := ih (gmnStep s node i acc) h
    have h3 := gmnStep_all s node i acc h2.1
    refine ⟨h3.1, ?_⟩
    intro j hj
    rcases List.mem_cons.mp hj with rfl | hj2
    · exact h3.2
    · exact h2.2 j hj2

/-- Every inner child pushed by one branch iteration either was already in
the push list or is stored in the inner-by-ID index. -/
theorem gmnStep_pushes (s : MapState) (node : SHAMapInnerNode) (i : Nat)
    (acc : Nat × List (SHAMapNode × Nat) × List SHAMapInnerNode × Bool)
    (d : SHAMapInnerNode) (hd : d ∈ (gmnStep s node i acc).2.2.1) :
    d ∈ acc.2.2.1 ∨ ∃ k, lookupID k s.innerByID = some d := by
  unfold gmnStep at hd
  split at hd
  · exact Or.inl hd
  · split at hd
    · split at hd
      · exact Or.inl hd
      · split at hd <;> exact Or.inl hd
    · split at hd
      · split at hd <;> exact Or.inl hd
      · rename_i desc hfound
        split at hd
        · exact Or.inl hd
        · rcases List.mem_append.mp hd with hl | hr
          · exact Or.inl hl
          · have : d = desc := by simpa using hr
            subst this
            exact Or.inr ⟨node.getChildNodeID i, getInner_lookup s _ _ _ hfound⟩

/-- Every inner child pushed by the branch scan either was already in the
push list or is stored in the inner-by-ID index. -/
theorem gmnScan_pushes (s : MapState) (node : SHAMapInnerNode) :
    ∀ (l : List Nat)
      (acc : Nat × List (SHAMapNode × Nat) × List SHAMapInnerNode × Bool)
      (d : SHAMapInnerNode), d ∈ (gmnScan s node l acc).2.2.1 →
    d ∈ acc.2.2.1 ∨ ∃ k, lookupID k s.innerByID = some d := by
  intro l
  induction l with
  | nil => intro acc d hd; exact Or.inl hd
  | cons i rest ih =>
    intro acc d hd
    rcases ih (gmnStep s node i acc) d hd with h1 | h2
    · exact gmnStep_pushes s node i acc d h1
    · exact Or.inr h2

/-- Every `fullBelow` flag newly set by the walk loop belongs to a node
that was reachable from the store (the root object or the inner-by-ID
index) and whose every non-empty branch (indices 0..31) resolved to a
resident child at marking time. -/
theorem gmnLoop_mark (s0 : MapState) (fuel : Nat) : ∀ (s : MapState)
    (stack : List SHAMapInnerNode) (mx : Nat) (out : List (SHAMapNode × Nat))
    (id : SHAMapNode),
    s.innerByID = s0.innerByID → s.leafByID = s0.leafByID →
    (∀ n ∈ stack, n = rootNode s0 ∨ ∃ k, lookupID k s0.innerByID = some n) →
    id ∈ (gmnLoop fuel s stack mx out).2.1.fullBelow →
    id ∉ s.fullBelow →
    ∃ n : SHAMapInnerNode, n.id = id ∧
      (n = rootNode s0 ∨ ∃ k, lookupID k s0.innerByID = some n) ∧
      ∀ i, i < 32 → n.isEmptyBranch i = false →
        residentChild s0 n i = true := by
  induction fuel with
  | zero => intro s stack mx out id _ _ _ h4 h5; exact absurd h4 h5
  | succ fuel ih =>
    intro s stack mx out id h1 h2 h3 h4 h5
    by_cases hmx : mx = 0
    · subst hmx
      rw [gmnLoop_zero] at h4
      exact absurd h4 h5
    · cases stack with
      | nil =>
        rw [gmnLoop_nil] at h4
        exact absurd h4 h5
      | cons node rest =>
        rw [show gmnLoop (fuel + 1) s (node :: rest) mx out
            = gmnLoop fuel
                (if (gmnScan s node (List.range 32) (mx, [], [], true)).2.2.2
                  then setFullBelow s node.id else s)
                ((gmnScan s node (List.range 32) (mx, [], [], true)).2.2.1.reverse
                  ++ rest)
                (gmnScan s node (List.range 32) (mx, [], [], true)).1
                (out ++ (gmnScan s node (List.range 32) (mx, [], [], true)).2.1)
          from by simp only [gmnLoop, hmx, reduceIte]] at h4
        have hstack2 : ∀ n ∈ (gmnScan s node (List.range 32)
            (mx, [], [], true)).2.2.1.reverse ++ rest,
            n = rootNode s0 ∨ ∃ k, lookupID k s0.innerByID = some n := by
          intro n hn
          rcases List.mem_append.mp hn with hl | hr
          · rcases gmnScan_pushes s node (List.range 32) (mx, [], [], true) n
                (List.mem_reverse.mp hl) with hacc | ⟨k, hk⟩
            · exact absurd hacc (by simp)
            · exact Or.inr ⟨k, by rw [← h1]; exact hk⟩
          · exact h3 n (List.mem_cons_of_mem _ hr)
        by_cases hall : (gmnScan s node (List.range 32) (mx, [], [], true)).2.2.2
            = true
        · by_cases hid : id = node.id
          · subst hid
            have hresid := (gmnScan_all s node (List.range 32)
              (mx, [], [], true) hall).2
            refine ⟨node, rfl, h3 node (List.mem_cons_self _ _), ?_⟩
            intro i hi hne
            have hres := hresid i (List.mem_range.mpr hi) hne
            rwa [residentChild_eq s s0 h1 h2] at hres
          · rw [if_pos hall] at h4
            refine ih (setFullBelow s node.id) _ _ _ id ?_ ?_ hstack2 h4 ?_
            · exact h1
            · exact h2
            · simp only [setFullBelow, List.mem_cons]
              rintro (h | h)
              · exact hid h
              · exact h5 h
        · rw [if_neg hall] at h4
          exact ih s _ _ _ id h1 h2 hstack2 h4 h5

/-- Lookup in an empty index finds nothing. -/
theorem getInnerM_nil (id : SHAMapNode) (h : Nat) : getInnerM [] id h = none := rfl

/-- On a map whose inner-by-ID index is empty, the branch scan of a node
with inner children emits exactly the non-empty branches of the scanned
index list, in order, truncated to the budget, pushes nothing, and clears
`all_leaves` as soon as some branch is non-empty. -/
theorem gmnScan_empties (s : MapState) (n : SHAMapInnerNode)
    (hM : s.innerByID = []) (hleaf : n.isChildLeaf = false) :
    ∀ (l : List Nat) (mx : Nat) (out : List (SHAMapNode × Nat))
      (pushes : List SHAMapInnerNode) (all : Bool),
    gmnScan s n l (mx, out, pushes, all) =
      (mx - (emitList n l).length, out ++ (emitList n l).take mx, pushes,
        all && (emitList n l).isEmpty) := by
  intro l
  induction l with
  | nil => intro mx out pushes all; simp [gmnScan, emitList]
  | cons i rest ih =>
    intro mx out pushes all
    show gmnScan s n rest (gmnStep s n i (mx, out, pushes, all)) = _
    have hnone : getInner s (n.getChildNodeID i) (n.getChildHash i) = none := by
      unfold getInner
      rw [hM]
      exact getInnerM_nil _ _
    by_cases he : n.isEmptyBranch i = true
    · rw [show gmnStep s n i (mx, out, pushes, all) = (mx, out, pushes, all)
        from by simp [gmnStep, he]]
      rw [ih]
      simp [emitList, he]
    · have he2 : n.isEmptyBranch i = false := by simp at he; simp [he]
      by_cases hmx : 0 < mx
      · rw [show gmnStep s n i (mx, out, pushes, all)
            = (mx - 1, out ++ [(n.getChildNodeID i, n.getChildHash i)], pushes,
                false)
          from by simp [gmnStep, he2, hleaf, hnone, hmx]]
        rw [ih]
        have hemit : emitList n (i :: rest)
            = (n.getChildNodeID i, n.getChildHash i) :: emitList n rest := by
          simp [emitList, he2]
        rw [hemit]
        obtain ⟨mx2, rfl⟩ : ∃ k, mx = k + 1 := ⟨mx - 1, by omega⟩
        simp only [List.length_cons, List.take_succ_cons, List.isEmpty_cons,
          Nat.add_sub_cancel, List.append_assoc, List.cons_append,
          List.nil_append, Bool.and_false, Bool.false_and]
        rw [Nat.succ_sub_succ]
      · have hmx0 : mx = 0 := by omega
        subst hmx0
        rw [show gmnStep s n i (0, out, pushes, all)
            = (0, out, pushes, false)
          from by simp [gmnStep, he2, hleaf, hnone]]
        rw [ih]
        have hemit : emitList n (i :: rest)
            = (n.getChildNodeID i, n.getChildHash i) :: emitList n rest := by
          simp [emitList, he2]
        rw [hemit]
        simp

/-- C1, counterexample to the claim as stated: on `exS1`,
`getMissingNodes` sets the root's `fullBelow` flag although the
grandchild named by `(⟨[0,0]⟩, 7)` — a descendant of the root reachable
through non-empty branches — is not resident (it is in fact emitted as
missing by the very same call). -/
theorem claim1_counterexample :
    SHAMapNode.mk [] ∈ ((getMissingNodes 3 exS1 10).2).fullBelow ∧
    exS1.root = some exR1 ∧ exR1.id = SHAMapNode.mk [] ∧
    (SHAMapNode.mk [0, 0], 7) ∈ reachPairs exS1 2 exR1 ∧
    residentPair exS1 (SHAMapNode.mk [0, 0], 7) = false ∧
    (getMissingNodes 3 exS1 10).1 = [(SHAMapNode.mk [0, 0], 7)] := by
  refine ⟨by decide, by decide, by decide, by decide, by decide, by decide⟩

/-- C1 (amended): whenever `getMissingNodes` sets the `fullBelow` flag of
an inner node `N`, the flag set is monotone across the call, and every
immediate child of `N` reachable through a non-empty branch (indices
0..31) was resident in the local store at that time; deeper descendants
may still be missing. -/
theorem claim1_theorem (fuel maxNodes : Nat) (s : MapState) (id : SHAMapNode)
    (h1 : id ∈ ((getMissingNodes fuel s maxNodes).2).fullBelow)
    (h2 : id ∉ s.fullBelow) :
    s.fullBelow ⊆ ((getMissingNodes fuel s maxNodes).2).fullBelow ∧
    ∃ n : SHAMapInnerNode, n.id = id ∧
      (n = rootNode s ∨ ∃ k, lookupID k s.innerByID = some n) ∧
      ∀ i, i < 32 → n.isEmptyBranch i = false → residentChild s n i = true := by
  by_cases hfb : isFullBelow s (rootNode s).id = true
  · unfold getMissingNodes at h1
    rw [if_pos hfb] at h1
    exact absurd h1 h2
  · have hred : getMissingNodes fuel s maxNodes
        = ((gmnLoop fuel s [rootNode s] maxNodes []).1,
           (gmnLoop fuel s [rootNode s] maxNodes []).2.1) := by
      unfold getMissingNodes
      rw [if_neg hfb]
    rw [hred] at h1 ⊢
    refine ⟨(gmnLoop_frame fuel s [rootNode s] maxNodes []).2.2.2.2.2.2, ?_⟩
    refine gmnLoop_mark s fuel s [rootNode s] maxNodes [] id rfl rfl ?_ h1 h2
    intro n hn
    exact Or.inl (List.mem_singleton.mp hn)

/-- C1, witness: on the map holding only an all-empty root, the call
marks the root and the amended claim's conclusion holds there. -/
theorem claim1_witness :
    SHAMapNode.mk [] ∈ ((getMissingNodes 2 exS3 5).2).fullBelow ∧
    SHAMapNode.mk [] ∉ exS3.fullBelow ∧
    (exS3.fullBelow ⊆ ((getMissingNodes 2 exS3 5).2).fullBelow ∧
      ∃ n : SHAMapInnerNode, n.id = SHAMapNode.mk [] ∧
        (n = rootNode exS3 ∨ ∃ k, lookupID k exS3.innerByID = some n) ∧
        ∀ i, i < 32 → n.isEmptyBranch i = false →
          residentChild exS3 n i = true) :=
  ⟨by decide, by decide, claim1_theorem 2 5 exS3 ⟨[]⟩ (by decide) (by decide)⟩

/-- C2: evaluation of `getNodeFat` at the failing input of the claim — on
an empty trie, a fat request for the root returns success with zero
nodes: the wanted inner node itself is never appended to the response
(the source only ever appends children), contradicting the claim and the
source's own `syncTest`, which asserts that exactly one node comes
back. -/
theorem claim2_theorem :
    getNodeFat emptyState (SHAMapNode.mk []) = (true, [], []) ∧
    (getNodeFat emptyState (SHAMapNode.mk [])).2.1.length = 0 := by
  refine ⟨by decide, by decide⟩

/-- C3: for a non-root ID that is not already cached, with `A` the
deepest resident inner ancestor found by `walkTo`: if `A` sits at the
ID's own depth the push succeeds without modifying the trie (late
arrival), and if `A` sits neither at the ID's depth nor one level above
it the push fails (`UnhookableNode`) without modifying the trie. -/
theorem claim3_theorem (s : MapState) (id : SHAMapNode) (raw : List Nat)
    (A : SHAMapInnerNode)
    (hroot : id.isRoot = false)
    (hc : cachedB s id = false)
    (hw : walkTo s id = some A) :
    (A.id.depth = id.depth → addKnownNode s id raw = (true, s)) ∧
    (A.id.depth ≠ id.depth → A.id.depth ≠ id.depth - 1 →
      addKnownNode s id raw = (false, s)) := by
  unfold addKnownNode
  rw [hc]
  simp only [Bool.false_eq_true, if_false]
  unfold addKnownNodeWalk
  simp only [hw]
  constructor
  · intro h
    rw [if_pos h]
  · intro h1 h2
    rw [if_neg h1, if_pos h2]

/-- C3, witness: pushing the depth-2 ID `⟨[0,0]⟩` into the map holding
only an all-empty root stops the walk at the depth-0 root, which is
neither at depth 2 nor at depth 1, so the push is rejected without
modifying the trie. -/
theorem claim3_witness :
    (SHAMapNode.mk [0, 0]).isRoot = false ∧
    cachedB exS3 (SHAMapNode.mk [0, 0]) = false ∧
    walkTo exS3 (SHAMapNode.mk [0, 0]) = some exS3root ∧
    ((exS3root.id.depth = (SHAMapNode.mk [0, 0]).depth →
        addKnownNode exS3 (SHAMapNode.mk [0, 0]) [] = (true, exS3)) ∧
      (exS3root.id.depth ≠ (SHAMapNode.mk [0, 0]).depth →
        exS3root.id.depth ≠ (SHAMapNode.mk [0, 0]).depth - 1 →
        addKnownNode exS3 (SHAMapNode.mk [0, 0]) [] = (false, exS3))) :=
  ⟨by decide, by decide, by decide,
    claim3_theorem exS3 ⟨[0, 0]⟩ [] exS3root (by decide) (by decide) (by decide)⟩

/-- C4: for a non-root, uncached ID whose deepest resident inner ancestor
`A` sits exactly one level above it, the push computes the branch by
`selectBranch`, fails (`EmptySlot`) when `A`'s child hash there is zero,
and otherwise deserializes per `id.isLeaf` and fails
(`ConsistencyFailure`) unless the recomputed node hash equals the stored
child hash and the deserialized node's derived ID equals the pushed ID;
only on success is the node installed in the corresponding by-ID index
and dirty set. -/
theorem claim4_theorem (s : MapState) (id : SHAMapNode) (raw : List Nat)
    (A : SHAMapInnerNode) (br : Nat)
    (hroot : id.isRoot = false)
    (hc : cachedB s id = false)
    (hw : walkTo s id = some A)
    (hd : A.id.depth = id.depth - 1)
    (hb : selectBranch A id = some br) :
    (A.getChildHash br = 0 → addKnownNode s id raw = (false, s)) ∧
    (∀ leaf : SHAMapLeafNode, id.isLeaf = true → A.getChildHash br ≠ 0 →
      deserLeaf raw s.seq = some leaf →
      ((leaf.getNodeHash ≠ A.getChildHash br ∨ keyToID leaf.key ≠ id) →
        addKnownNode s id raw = (false, s)) ∧
      (leaf.getNodeHash = A.getChildHash br → keyToID leaf.key = id →
        addKnownNode s id raw = (true, installLeaf s id leaf))) ∧
    (∀ nn : SHAMapInnerNode, id.isLeaf = false → A.getChildHash br ≠ 0 →
      deserInner id raw s.seq = some nn →
      nn.id = id ∧
      ((nn.getNodeHash ≠ A.getChildHash br →
        addKnownNode s id raw = (false, s)) ∧
      (nn.getNodeHash = A.getChildHash br →
        addKnownNode s id raw = (true, installInner s id nn)))) := by
  have hdep : id.depth ≠ 0 := by
    simpa [SHAMapNode.isRoot] using hroot
  have hne : A.id.depth ≠ id.depth := by
    rw [hd]
    omega
  have hkey : addKnownNode s id raw
      = if A.getChildHash br = 0 then (false, s)
        else addKnownNodeInstall s id raw (A.getChildHash br) := by
    unfold addKnownNode
    rw [hc]
    simp only [Bool.false_eq_true, if_false]
    unfold addKnownNodeWalk
    simp only [hw, hb]
    rw [if_neg hne, if_neg (not_not_intro hd)]
  refine ⟨?_, ?_, ?_⟩
  · intro hz
    rw [hkey, if_pos hz]
  · intro leaf hl hz hdes
    rw [hkey, if_neg hz]
    unfold addKnownNodeInstall
    simp only [hl, hdes, if_true, reduceIte]
    constructor
    · intro hbad
      rw [if_pos hbad]
    · intro he1 he2
      rw [if_neg (by push_neg; exact ⟨he1, he2⟩)]
  · intro nn hl hz hdes
    have hnn : nn = ⟨id, raw, s.seq⟩ := by
      unfold deserInner at hdes
      split at hdes
      · injection hdes with hdes
        exact hdes.symm
      · exact absurd hdes (by simp)
    have hnid : nn.id = id := by rw [hnn]
    refine ⟨hnid, ?_, ?_⟩
    · intro hbad
      rw [hkey, if_neg hz]
      unfold addKnownNodeInstall
      simp only [hl, hdes, Bool.false_eq_true, if_false, reduceIte]
      rw [if_pos (Or.inl hbad)]
    · intro he1
      rw [hkey, if_neg hz]
      unfold addKnownNodeInstall
      simp only [hl, hdes, Bool.false_eq_true, if_false, reduceIte]
      rw [if_neg (by push_neg; exact ⟨he1, hnid⟩)]

/-- C4, witness: pushing the depth-1 inner node `n4` with wire form
`raw4` into `exS4` hooks it under the root at branch 0, passes the hash
and ID checks, and installs it in the inner-by-ID index and dirty-inner
set. -/
theorem claim4_witness :
    (SHAMapNode.mk [0]).isRoot = false ∧
    cachedB exS4 (SHAMapNode.mk [0]) = false ∧
    walkTo exS4 (SHAMapNode.mk [0]) = some exR4 ∧
    exR4.id.depth = (SHAMapNode.mk [0]).depth - 1 ∧
    selectBranch exR4 (SHAMapNode.mk [0]) = some 0 ∧
    ((exR4.getChildHash 0 = 0 →
        addKnownNode exS4 (SHAMapNode.mk [0]) raw4 = (false, exS4)) ∧
      (∀ leaf : SHAMapLeafNode, (SHAMapNode.mk [0]).isLeaf = true →
        exR4.getChildHash 0 ≠ 0 →
        deserLeaf raw4 exS4.seq = some leaf →
        ((leaf.getNodeHash ≠ exR4.getChildHash 0 ∨
            keyToID leaf.key ≠ SHAMapNode.mk [0]) →
          addKnownNode exS4 (SHAMapNode.mk [0]) raw4 = (false, exS4)) ∧
        (leaf.getNodeHash = exR4.getChildHash 0 →
          keyToID leaf.key = SHAMapNode.mk [0] →
          addKnownNode exS4 (SHAMapNode.mk [0]) raw4
            = (true, installLeaf exS4 (SHAMapNode.mk [0]) leaf))) ∧
      (∀ nn : SHAMapInnerNode, (SHAMapNode.mk [0]).isLeaf = false →
        exR4.getChildHash 0 ≠ 0 →
        deserInner (SHAMapNode.mk [0]) raw4 exS4.seq = some nn →
        nn.id = SHAMapNode.mk [0] ∧
        ((nn.getNodeHash ≠ exR4.getChildHash 0 →
          addKnownNode exS4 (SHAMapNode.mk [0]) raw4 = (false, exS4)) ∧
        (nn.getNodeHash = exR4.getChildHash 0 →
          addKnownNode exS4 (SHAMapNode.mk [0]) raw4
            = (true, installInner exS4 (SHAMapNode.mk [0]) nn))))) :=
  ⟨by decide, by decide, by decide, by decide, by decide,
    claim4_theorem exS4 ⟨[0]⟩ raw4 exR4 0 (by decide) (by decide) (by decide)
      (by decide) (by decide)⟩

/-- C5: at most `maxNodes` pairs are emitted; a zero budget returns an
empty result with the state untouched (no `fullBelow` flag set); and
throughout the loop each emitted pair costs exactly one unit of the
shared budget (the scan of a node's remaining siblings continues either
way, as `gmnScan` processes its whole index list unconditionally). -/
theorem claim5_theorem (fuel maxNodes : Nat) (s : MapState) :
    (getMissingNodes fuel s maxNodes).1.length ≤ maxNodes ∧
    getMissingNodes fuel s 0 = ([], s) ∧
    ∀ (stack : List SHAMapInnerNode) (mx : Nat) (out : List (SHAMapNode × Nat)),
      (gmnLoop fuel s stack mx out).2.2 + (gmnLoop fuel s stack mx out).1.length
        = mx + out.length := by
  refine ⟨?_, ?_, fun stack mx out => gmnLoop_budget fuel s stack mx out⟩
  · unfold getMissingNodes
    split
    · simp
    · have h := gmnLoop_budget fuel s [rootNode s] maxNodes []
      simp only [List.length_nil] at h
      simp only []
      omega
  · unfold getMissingNodes
    split
    · rfl
    · rw [gmnLoop_zero]

/-- C6, counterexample to the claim as stated: on `exS20`, whose root has
all branches 0..15 empty and one non-empty branch at index 20,
`getMissingNodes` emits the branch-20 child — so branches beyond index 15
are considered, refuting that exactly the branches 0..15 are scanned. -/
theorem claim6_counterexample :
    (getMissingNodes 2 exS20 5).1 = [(SHAMapNode.mk [20], 7)] ∧
    (∀ i, i < 16 → exR20.isEmptyBranch i = true) ∧
    exS20.root = some exR20 := by
  refine ⟨by decide, by decide, by decide⟩

/-- C6 (amended): `getMissingNodes` traverses depth-first with a LIFO
stack seeded with the root, and within each visited inner node it
considers exactly the branches with indices 0 through 31, in increasing
index order: on a map whose inner-by-ID index is empty the emitted list
is precisely the non-empty branches of the root in the order of
`List.range 32`, truncated to the budget. -/
theorem claim6_theorem (fuel maxNodes : Nat) (s : MapState)
    (r : SHAMapInnerNode)
    (hroot : s.root = some r) (hM : s.innerByID = [])
    (hleaf : r.isChildLeaf = false) (hfb : isFullBelow s r.id = false)
    (hfuel : 1 ≤ fuel) :
    (getMissingNodes fuel s maxNodes).1
      = (emitList r (List.range 32)).take maxNodes := by
  obtain ⟨fuel2, rfl⟩ : ∃ k, fuel = k + 1 := ⟨fuel - 1, by omega⟩
  have hrn : rootNode s = r := by simp [rootNode, hroot]
  unfold getMissingNodes
  rw [hrn, hfb]
  simp only [Bool.false_eq_true, if_false, reduceIte]
  by_cases hmx : maxNodes = 0
  · subst hmx
    rw [gmnLoop_zero]
    simp
  · rw [show gmnLoop (fuel2 + 1) s [r] maxNodes []
        = gmnLoop fuel2
            (if (gmnScan s r (List.range 32) (maxNodes, [], [], true)).2.2.2
              then setFullBelow s r.id else s)
            ((gmnScan s r (List.range 32) (maxNodes, [], [], true)).2.2.1.reverse
              ++ [])
            (gmnScan s r (List.range 32) (maxNodes, [], [], true)).1
            ([] ++ (gmnScan s r (List.range 32) (maxNodes, [], [], true)).2.1)
      from by simp only [gmnLoop, hmx, reduceIte]]
    rw [gmnScan_empties s r hM hleaf (List.range 32) maxNodes [] [] true]
    simp only [List.reverse_nil, List.nil_append, List.append_nil]
    rw [gmnLoop_nil]

/-- C6, witness: on `exS20` the amended characterization evaluates to the
single branch-20 pair. -/
theorem claim6_witness :
    exS20.root = some exR20 ∧ exS20.innerByID = [] ∧
    exR20.isChildLeaf = false ∧ isFullBelow exS20 exR20.id = false ∧
    (getMissingNodes 2 exS20 5).1 = (emitList exR20 (List.range 32)).take 5 :=
  ⟨rfl, rfl, by decide, by decide,
    claim6_theorem 2 5 exS20 exR20 rfl rfl (by decide) (by decide)
      (by decide)⟩

/-- C7: both `addRootNode` variants return success without modifying the
trie whenever a root is already present (root hash non-zero), and
`addKnownNode` returns success without modifying the trie whenever the
pushed node is already cached; consequently replaying any previously
accepted push (`addKnownNode` or either `addRootNode`) succeeds and
leaves the trie unchanged. -/
theorem claim7_theorem :
    (∀ (s : MapState) (raw : List Nat) (h : Nat) (r : SHAMapInnerNode),
      s.root = some r →
      addRootNode s raw = (true, s) ∧ addRootNodeH s h raw = (true, s)) ∧
    (∀ (s : MapState) (id : SHAMapNode) (raw : List Nat),
      cachedB s id = true → addKnownNode s id raw = (true, s)) ∧
    (∀ (s : MapState) (id : SHAMapNode) (raw : List Nat) (s2 : MapState),
      addKnownNode s id raw = (true, s2) →
      addKnownNode s2 id raw = (true, s2)) ∧
    (∀ (s : MapState) (raw : List Nat) (s2 : MapState),
      addRootNode s raw = (true, s2) → addRootNode s2 raw = (true, s2)) ∧
    (∀ (s : MapState) (h : Nat) (raw : List Nat) (s2 : MapState),
      addRootNodeH s h raw = (true, s2) →
      addRootNodeH s2 h raw = (true, s2)) := by
  refine ⟨?_, ?_, ?_, ?_, ?_⟩
  · intro s raw h r hr
    constructor
    · simp only [addRootNode, hr]
    · simp only [addRootNodeH, hr]
  · intro s id raw hcach
    simp [addKnownNode, hcach]
  · intro s id raw s2 hsucc
    by_cases hcach : cachedB s id = true
    · have heq : addKnownNode s id raw = (true, s) := by
        simp [addKnownNode, hcach]
      rw [heq] at hsucc
      have h2 : s = s2 := congrArg Prod.snd hsucc
      subst h2
      exact heq
    · have hcf : cachedB s id = false := by simpa using hcach
      have hwk : addKnownNode s id raw = addKnownNodeWalk s id raw := by
        simp [addKnownNode, hcf]
      rw [hwk] at hsucc
      unfold addKnownNodeWalk at hsucc
      cases hwt : walkTo s id with
      | none =>
        simp only [hwt] at hsucc
        have h2 : s = s2 := congrArg Prod.snd hsucc
        subst h2
        rw [hwk]
        unfold addKnownNodeWalk
        simp only [hwt]
      | some A =>
        simp only [hwt] at hsucc
        by_cases h1 : A.id.depth = id.depth
        · rw [if_pos h1] at hsucc
          have h2 : s = s2 := congrArg Prod.snd hsucc
          subst h2
          rw [hwk]
          unfold addKnownNodeWalk
          simp only [hwt]
          rw [if_pos h1]
        · rw [if_neg h1] at hsucc
          by_cases h2 : A.id.depth ≠ id.depth - 1
          · rw [if_pos h2] at hsucc
            exact absurd (congrArg Prod.fst hsucc) (by simp)
          · rw [if_neg h2] at hsucc
            cases hsb : selectBranch A id with
            | none =>
              simp only [hsb] at hsucc
              exact absurd (congrArg Prod.fst hsucc) (by simp)
            | some br =>
              simp only [hsb] at hsucc
              by_cases hz : A.getChildHash br = 0
              · rw [if_pos hz] at hsucc
                exact absurd (congrArg Prod.fst hsucc) (by simp)
              · rw [if_neg hz] at hsucc
                unfold addKnownNodeInstall at hsucc
                by_cases hl : id.isLeaf = true
                · simp only [hl, if_true, reduceIte] at hsucc
                  cases hdes : deserLeaf raw s.seq with
                  | none =>
                    simp only [hdes] at hsucc
                    exact absurd (congrArg Prod.fst hsucc) (by simp)
                  | some leaf =>
                    simp only [hdes] at hsucc
                    by_cases hbad : leaf.getNodeHash ≠ A.getChildHash br
                        ∨ keyToID leaf.key ≠ id
                    · rw [if_pos hbad] at hsucc
                      exact absurd (congrArg Prod.fst hsucc) (by simp)
                    · rw [if_neg hbad] at hsucc
                      have h3 : installLeaf s id leaf = s2 :=
                        congrArg Prod.snd hsucc
                      subst h3
                      have hcached : cachedB (installLeaf s id leaf) id = true := by
                        simp [cachedB, hl, checkCacheLeaf, installLeaf, lookupID]
                      simp [addKnownNode, hcached]
                · have hlf : id.isLeaf = false := by simpa using hl
                  simp only [hlf, Bool.false_eq_true, if_false, reduceIte] at hsucc
                  cases hdes : deserInner id raw s.seq with
                  | none =>
                    simp only [hdes] at hsucc
                    exact absurd (congrArg Prod.fst hsucc) (by simp)
                  | some nn =>
                    simp only [hdes] at hsucc
                    by_cases hbad : nn.getNodeHash ≠ A.getChildHash br
                        ∨ nn.id ≠ id
                    · rw [if_pos hbad] at hsucc
                      exact absurd (congrArg Prod.fst hsucc) (by simp)
                    · rw [if_neg hbad] at hsucc
                      have h3 : installInner s id nn = s2 :=
                        congrArg Prod.snd hsucc
                      subst h3
                      have hcached : cachedB (installInner s id nn) id = true := by
                        simp [cachedB, hlf, checkCacheNode, installInner, lookupID]
                      simp [addKnownNode, hcached]
  · intro s raw s2 hsucc
    unfold addRootNode at hsucc
    cases hr : s.root with
    | some r =>
      simp only [hr] at hsucc
      have h2 : s = s2 := congrArg Prod.snd hsucc
      subst h2
      simp only [addRootNode, hr]
    | none =>
      simp only [hr] at hsucc
      cases hd : deserInner ⟨[]⟩ raw 0 with
      | none =>
        simp only [hd] at hsucc
        exact absurd (congrArg Prod.fst hsucc) (by simp)
      | some node =>
        simp only [hd] at hsucc
        have h2 : installRoot s node = s2 := congrArg Prod.snd hsucc
        subst h2
        simp [addRootNode, installRoot]
  · intro s h raw s2 hsucc
    unfold addRootNodeH at hsucc
    cases hr : s.root with
    | some r =>
      simp only [hr] at hsucc
      have h2 : s = s2 := congrArg Prod.snd hsucc
      subst h2
      simp only [addRootNodeH, hr]
    | none =>
      simp only [hr] at hsucc
      cases hd : deserInner ⟨[]⟩ raw 0 with
      | none =>
        simp only [hd] at hsucc
        exact absurd (congrArg Prod.fst hsucc) (by simp)
      | some node =>
        simp only [hd] at hsucc
        by_cases hh : node.getNodeHash ≠ h
        · rw [if_pos hh] at hsucc
          exact absurd (congrArg Prod.fst hsucc) (by simp)
        · rw [if_neg hh] at hsucc
          have h2 : installRoot s node = s2 := congrArg Prod.snd hsucc
          subst h2
          simp [addRootNodeH, installRoot]

/-- C7, witness: a duplicate push of the already-cached leaf `exLeaf7`
succeeds and leaves `exS7` unchanged. -/
theorem claim7_witness :
    cachedB exS7 exId7 = true ∧
    addKnownNode exS7 exId7 [] = (true, exS7) :=
  ⟨by decide, claim7_theorem.2.1 exS7 exId7 [] (by decide)⟩

/-- C8: with no root present (root hash zero), `addRootNode` with an
expected hash rejects a deserialized inner node whose recomputed hash
differs, leaving the trie unchanged; on a hash match the node is
installed as root, inserted into the inner-by-ID index and, when dirty
tracking is enabled, into the dirty-inner set. -/
theorem claim8_theorem (s : MapState) (h : Nat) (raw : List Nat)
    (node : SHAMapInnerNode)
    (hroot : s.root = none)
    (hdes : deserInner (SHAMapNode.mk []) raw 0 = some node) :
    (node.getNodeHash ≠ h → addRootNodeH s h raw = (false, s)) ∧
    (node.getNodeHash = h →
      addRootNodeH s h raw = (true, installRoot s node) ∧
      (installRoot s node).root = some node ∧
      (installRoot s node).innerByID = (node.id, node) :: s.innerByID ∧
      ∀ d, s.dirtyInner = some d →
        (installRoot s node).dirtyInner = some ((node.id, node) :: d)) := by
  have hred : addRootNodeH s h raw
      = if node.getNodeHash ≠ h then (false, s)
        else (true, installRoot s node) := by
    unfold addRootNodeH
    simp only [hroot, hdes]
  constructor
  · intro hh
    rw [hred, if_pos hh]
  · intro hh
    refine ⟨by rw [hred, if_neg (not_not_intro hh)], rfl, rfl, ?_⟩
    intro d hd
    simp [installRoot, dirtyAdd, hd]

/-- C8, witness: installing the all-zero inner node `n8` as root of the
rootless map `exS8` (dirty tracking enabled) with the matching expected
hash. -/
theorem claim8_witness :
    exS8.root = none ∧
    deserInner (SHAMapNode.mk []) raw8 0 = some n8 ∧
    ((n8.getNodeHash ≠ n8.getNodeHash →
        addRootNodeH exS8 n8.getNodeHash raw8 = (false, exS8)) ∧
      (n8.getNodeHash = n8.getNodeHash →
        addRootNodeH exS8 n8.getNodeHash raw8 = (true, installRoot exS8 n8) ∧
        (installRoot exS8 n8).root = some n8 ∧
        (installRoot exS8 n8).innerByID = (n8.id, n8) :: exS8.innerByID ∧
        ∀ d, exS8.dirtyInner = some d →
          (installRoot exS8 n8).dirtyInner = some ((n8.id, n8) :: d))) :=
  ⟨rfl, by decide, claim8_theorem exS8 n8.getNodeHash raw8 n8 rfl (by decide)⟩

/-- C9: when `walkTo` finds no node at all (the null-root assertion
path), `addKnownNode` returns success without installing anything or
modifying the trie. -/
theorem claim9_theorem (s : MapState) (id : SHAMapNode) (raw : List Nat)
    (hw : walkTo s id = none) :
    addKnownNode s id raw = (true, s) := by
  unfold addKnownNode
  by_cases hcach : cachedB s id = true
  · rw [if_pos hcach]
  · rw [if_neg hcach]
    unfold addKnownNodeWalk
    simp only [hw]

/-- C9, witness: on the rootless `emptyState`, `walkTo` returns nothing
and the push of `⟨[0]⟩` succeeds without changing the state. -/
theorem claim9_witness :
    walkTo emptyState (SHAMapNode.mk [0]) = none ∧
    addKnownNode emptyState (SHAMapNode.mk [0]) [] = (true, emptyState) :=
  ⟨by decide, claim9_theorem emptyState ⟨[0]⟩ [] (by decide)⟩

/-- C10: `getMissingNodes` never touches the by-ID indexes, the dirty
sets, the root object or the sequence tag — so no node's hash or child
hashes change — and its only mutation is growing the set of `fullBelow`
flags. -/
theorem claim10_theorem (fuel maxNodes : Nat) (s : MapState) :
    (getMissingNodes fuel s maxNodes).2.root = s.root ∧
    (getMissingNodes fuel s maxNodes).2.innerByID = s.innerByID ∧
    (getMissingNodes fuel s maxNodes).2.leafByID = s.leafByID ∧
    (getMissingNodes fuel s maxNodes).2.dirtyInner = s.dirtyInner ∧
    (getMissingNodes fuel s maxNodes).2.dirtyLeaf = s.dirtyLeaf ∧
    (getMissingNodes fuel s maxNodes).2.seq = s.seq ∧
    s.fullBelow ⊆ (getMissingNodes fuel s maxNodes).2.fullBelow := by
  have h : frameOK s (getMissingNodes fuel s maxNodes).2 := by
    unfold getMissingNodes
    split
    · exact frameOK_refl s
    · exact gmnLoop_frame fuel s [rootNode s] maxNodes []
  exact h

end SHAMapSync
